import Mathlib

/-!
Shallow embedding of the hyperparameter-search training loop of
`train_rnn.py` (Context-Aware-Transformer repository).

Tensors are modelled as lists of time-steps (the trailing feature
dimensions are irrelevant to the claims, so a time-step is an opaque
element of a type `α`); Python floats are modelled as rationals
(the claims only compare losses, never round them); Python ints are
`Int`; fallible code returns `Except String`.
-/

/-- Embedding of `batching` (`train_rnn.py` lines 23-36):
`batch_n = int(x.shape[0] / batch_size)`, `start = x.shape[0] % batch_n`,
then `batch_n` slices of `batch_size` contiguous time-steps each, the cursor
starting at `start` and advancing by `batch_size` per batch.  When
`batch_n = 0` the Python `%` raises `ZeroDivisionError`; a slice shorter
than `batch_size` would make the tensor assignment `X[i,:,:,:] = ...` fail,
modelled by the shape check on every slice. -/
def batching {α : Type} (batch_size : Nat) (x y_t : List α) :
    Except String (List (List α) × List (List α)) :=
  let batch_n := x.length / batch_size
  if batch_n = 0 then
    .error "ZeroDivisionError: integer division or modulo by zero"
  else
    let start := x.length % batch_n
    let X := (List.range batch_n).map fun i =>
      (x.drop (start + i * batch_size)).take batch_size
    let Y_t := (List.range batch_n).map fun i =>
      (y_t.drop (start + i * batch_size)).take batch_size
    if (X.all fun b => b.length == batch_size) &&
       (Y_t.all fun b => b.length == batch_size) then
      .ok (X, Y_t)
    else
      .error "IndexError: shape mismatch"

/-- The tuple returned by one call of `train` (`train_rnn.py` line 102):
`(best_config, val_loss, val_inner_loss, stop, e)`, plus a flag recording
whether this call executed the `torch.save` of the best-model checkpoint
(line 85).  `α` is the type of hyperparameter configurations. -/
structure StepResult (α : Type) where
  best_config : α
  val_loss : ℚ
  val_inner_loss : ℚ
  stop : Bool
  e : Int
  saved : Bool
deriving Repr, DecidableEq

/-- Embedding of the validation / early-stopping tail of `train`
(`train_rnn.py` lines 80-88 together with the `return` on line 102):
the epoch's summed validation loss is `test_loss`; the branch structure
is exactly the `if test_loss < val_inner_loss: ... if val_inner_loss <
val_loss: ... elif epoch - e > 30: stop = True` of the source. -/
def train_step {α : Type} (test_loss : ℚ) (epoch e : Int)
    (val_loss val_inner_loss : ℚ) (config best_config : α) : StepResult α :=
  if test_loss < val_inner_loss then
    if test_loss < val_loss then
      ⟨config, test_loss, test_loss, false, e, true⟩
    else
      ⟨best_config, val_loss, test_loss, false, e, false⟩
  else if 30 < epoch - e then
    ⟨best_config, val_loss, val_inner_loss, true, e, false⟩
  else
    ⟨best_config, val_loss, val_inner_loss, false, e, false⟩

/-- The cross-epoch state threaded by `main` between successive calls of
`train` (`train_rnn.py` lines 330-336): the running best configuration,
the global and per-config best validation losses, the stall-window start
`e`, and the content of the best-model checkpoint file on disk (`disk` is
the configuration whose model the file currently stores, `none` when the
file has never been written). -/
structure RunState (α : Type) where
  best_config : α
  val_loss : ℚ
  val_inner_loss : ℚ
  e : Int
  disk : Option α
deriving Repr, DecidableEq

/-- How `main` absorbs the tuple returned by `train` into its loop state,
including the effect of the `torch.save` on the checkpoint file. -/
def applyStep {α : Type} (s : RunState α) (config : α) (r : StepResult α) :
    RunState α :=
  ⟨r.best_config, r.val_loss, r.val_inner_loss, r.e,
   if r.saved then some config else s.disk⟩

/-- Embedding of the per-config epoch loop of `main` (`train_rnn.py`
lines 330-338): one `train` call per validation loss in `losses`,
breaking at the first `stop = True`.  Returns the final state and the
epoch at which `stop` was signalled (`none` when it never was); because
the loop breaks immediately, `stop` is signalled at most once. -/
def runEpochs {α : Type} (config : α) :
    List ℚ → Int → RunState α → RunState α × Option Int
  | [], _, s => (s, none)
  | l :: ls, epoch, s =>
    if (train_step l epoch s.e s.val_loss s.val_inner_loss config
          s.best_config).stop then
      (applyStep s config
        (train_step l epoch s.e s.val_loss s.val_inner_loss config
          s.best_config), some epoch)
    else
      runEpochs config ls (epoch + 1)
        (applyStep s config
          (train_step l epoch s.e s.val_loss s.val_inner_loss config
            s.best_config))

/-- State of the per-config epoch loop after the first `n` validation
losses, never breaking (identical to `runEpochs` up to and including the
stopping epoch, since a stopping `train_step` leaves the threaded state
unchanged). -/
def runAllEpochs {α : Type} (config : α) :
    List ℚ → Int → RunState α → RunState α
  | [], _, s => s
  | l :: ls, epoch, s =>
    runAllEpochs config ls (epoch + 1)
      (applyStep s config
        (train_step l epoch s.e s.val_loss s.val_inner_loss config
          s.best_config))

/-- Modelled from the spec: the epochs "of the most recent improvement in
this config's `val_inner_loss`" are the epochs at which `val_inner_loss`
strictly decreases; this definition follows the spec's words (it is not
code of the repository) and is used only to compare the code's stopping
epoch with the spec's stall-window notion. -/
def improvementEpochsSpec (losses : List ℚ) (s0 : RunState ℕ) : List ℕ :=
  (List.range losses.length).filter fun n =>
    decide ((runAllEpochs 0 (losses.take (n + 1)) 0 s0).val_inner_loss <
      (runAllEpochs 0 (losses.take n) 0 s0).val_inner_loss)

/-- The initial per-config state of `main` (`train_rnn.py` lines 249,
328-329): `val_loss = 1e10`, `val_inner_loss = 1e10`, `e = 0`, nothing on
disk yet, initial best configuration `0`. -/
def initRun : RunState ℕ := ⟨0, 10000000000, 10000000000, 0, none⟩

/-- Embedding of the outer per-config search loop of `main`
(`train_rnn.py` lines 259-341): for each configuration, train through its
loss column (`lossTable` head), then invoke `evaluate` — the source passes
`best_config` (line 340), not the configuration just trained.  Returns the
list of configurations passed to `evaluate` (one per config) and the final
best configuration. -/
def searchLoop {α : Type} :
    List α → List (List ℚ) → ℚ → α → Option α → List α × α
  | [], _, _, best, _ => ([], best)
  | c :: cs, lossTable, vl, best, disk =>
    let s := (runEpochs c (lossTable.headD []) 0
      ⟨best, vl, 10000000000, 0, disk⟩).1
    let rest := searchLoop cs lossTable.tail s.val_loss s.best_config s.disk
    (s.best_config :: rest.1, rest.2)

/-- The full sequence of configurations on which `main` invokes
`evaluate`: one invocation after each configuration's training
(`train_rnn.py` line 340, argument `best_config`) and one final invocation
with the overall best configuration (line 354).  `main` starts with
`val_loss = 1e10` and `best_config = configs[0]` (lines 249-250), which
fails with an `IndexError` when the configuration list is empty. -/
def mainEvalCalls {α : Type} (configs : List α) (lossTable : List (List ℚ)) :
    Except String (List α) :=
  match configs with
  | [] => .error "IndexError: list index out of range"
  | c :: cs =>
    let p := searchLoop (c :: cs) lossTable 10000000000 c none
    .ok (p.1 ++ [p.2])

/-- Embedding of `itertools.product(*hyper_parameters)`: the Cartesian
product of the per-dimension value lists, leftmost dimension varying
slowest, each tuple a list. -/
def product {α : Type} : List (List α) → List (List α)
  | [] => [[]]
  | l :: ls => l.flatMap fun a => (product ls).map fun t => a :: t

/-- One draw of Python's `random.sample` without replacement: at each step
an index into the remaining population is chosen (the process-wide random
source is abstracted as the `choose` function; any sequence of draws is
some `choose`), the element is emitted and removed. -/
def sampleAux {α : Type} (choose : Nat → Nat) : Nat → List α → List α
  | 0, _ => []
  | _ + 1, [] => []
  | k + 1, a :: rest =>
    let i : Fin (a :: rest).length := ⟨choose k % (a :: rest).length,
      Nat.mod_lt _ (Nat.succ_pos rest.length)⟩
    (a :: rest).get i :: sampleAux choose k ((a :: rest).eraseIdx i)

/-- Embedding of `random.sample(population, k)`: raises `ValueError` when
`k` exceeds the population size, otherwise returns `k` distinct draws
without replacement. -/
def randomSample {α : Type} (choose : Nat → Nat) (population : List α)
    (k : Nat) : Except String (List α) :=
  if population.length < k then
    .error "ValueError: Sample larger than population or is negative"
  else
    .ok (sampleAux choose k population)

/-- Embedding of `create_config` (`train_rnn.py` lines 105-109):
`prod = list(itertools.product(*hyper_parameters))`,
`num_samples = len(prod)` (the length BEFORE deduplication), and
`random.sample(set(prod), num_samples)` — the Python `set` is modelled by
`List.dedup` (its iteration order is absorbed into `choose`). -/
def create_config {α : Type} [DecidableEq α] (choose : Nat → Nat)
    (hyper_parameters : List (List α)) : Except String (List (List α)) :=
  let prod := product hyper_parameters
  let num_samples := prod.length
  randomSample choose prod.dedup num_samples

/-- Embedding of the configuration-space setup of `main` (`train_rnn.py`
lines 247-250): `configs = create_config(hyper_param)` followed by
`best_config = configs[0]`, which raises an `IndexError` when `configs`
is empty. -/
def mainSetup {α : Type} [DecidableEq α] (choose : Nat → Nat)
    (hyper_param : List (List α)) :
    Except String (List (List α) × List α) :=
  match create_config choose hyper_param with
  | .error err => .error err
  | .ok configs =>
    match configs with
    | [] => .error "IndexError: list index out of range"
    | c :: cs => .ok (c :: cs, c)

/-- A JSON ledger file: an ordered dictionary from run name to list of
recorded numbers, as loaded by `json.load`. -/
def Ledger : Type := List (String × List ℚ)

/-- `json_dat.get(name)`: the value stored under a key, `none` when the
key is absent. -/
def getKey (k : String) : Ledger → Option (List ℚ)
  | [] => none
  | (k2, v) :: rest => if k2 = k then some v else getKey k rest

/-- Python dict assignment `json_dat[name] = v`: replaces the entry in
place when the key exists, appends a new entry otherwise. -/
def setKey (k : String) (v : List ℚ) : Ledger → Ledger
  | [] => [(k, v)]
  | (k2, v2) :: rest =>
    if k2 = k then (k, v) :: rest else (k2, v2) :: setKey k v rest

/-- Embedding of the error-ledger merge of `main` (`train_rnn.py` lines
369-381): when the ledger file exists (`disk = some json_dat`) the run
name's prior list (defaulted to `[]` when absent) gets the new RMSE and
MAE appended and the file is rewritten; when no file exists a fresh file
holding only this run's pair is created. -/
def updateErrorLedger (disk : Option Ledger) (name : String)
    (rmse mae : ℚ) : Ledger :=
  match disk with
  | some json_dat =>
    let prior := (getKey name json_dat).getD []
    setKey name (prior ++ [rmse, mae]) json_dat
  | none => [(name, [rmse, mae])]

/-- What can happen during the `try` body of `train` (`train_rnn.py`
lines 56-100): nothing raised, a `KeyboardInterrupt`, or any other
exception. -/
inductive PyEvent : Type
  | noExc
  | keyboardInterrupt
  | otherExc
deriving Repr, DecidableEq

/-- The dictionary written by the interrupt handler of `train`
(`train_rnn.py` lines 93-99): exactly the keys `epoch`,
`model_state_dict`, `optimizer_state_dict`, `config_num`, `best_config`.
Model and optimizer states are opaque. -/
structure ContinueCkpt (α : Type) where
  epoch : Int
  model_state_dict : Nat
  optimizer_state_dict : Nat
  config_num : Nat
  best_config : α
deriving Repr, DecidableEq

/-- How a call of `train` can end: a normal return of the
`(best_config, val_loss, val_inner_loss, stop, e)` tuple, a process exit
(`sys.exit`) after writing a continue checkpoint to the named file, or an
uncaught exception propagating to the caller. -/
inductive TrainOutcome (α : Type) : Type
  | ret (r : StepResult α)
  | exitProcess (code : Nat) (file : String) (ckpt : ContinueCkpt α)
  | raised
deriving Repr, DecidableEq

/-- Embedding of `train` with its exception handling (`train_rnn.py`
lines 50-102): the whole body sits in a `try` whose only handler catches
`KeyboardInterrupt`, writes the continue checkpoint under
`"<run-name>_continue"` and calls `sys.exit(0)`; any other exception
propagates. -/
def train {α : Type} (name : String) (event : PyEvent)
    (model_state optimizer_state : Nat) (test_loss : ℚ) (epoch e : Int)
    (val_loss val_inner_loss : ℚ) (config : α) (config_num : Nat)
    (best_config : α) : TrainOutcome α :=
  match event with
  | .noExc => .ret (train_step test_loss epoch e val_loss val_inner_loss
      config best_config)
  | .keyboardInterrupt => .exitProcess 0 (name ++ "_continue")
      ⟨epoch, model_state, optimizer_state, config_num, best_config⟩
  | .otherExc => .raised

theorem train_step_e_eq {α : Type} (t : ℚ) (ep e : Int) (vl vil : ℚ)
    (c b : α) : (train_step t ep e vl vil c b).e = e := by
  unfold train_step
  split_ifs <;> rfl

theorem train_step_stop_iff {α : Type} (t : ℚ) (ep e : Int) (vl vil : ℚ)
    (c b : α) :
    (train_step t ep e vl vil c b).stop = true ↔ vil ≤ t ∧ 30 < ep - e := by
  unfold train_step
  split_ifs with h1 h2 h3
  · simp [not_le.mpr h1]
  · simp [not_le.mpr h1]
  · simp [not_lt.mp h1, h3]
  · simp [h3]

theorem train_step_no_change {α : Type} (t : ℚ) (ep e : Int) (vl vil : ℚ)
    (c b : α) (h1 : ¬ t < vil) (h2 : ¬ 30 < ep - e) :
    train_step t ep e vl vil c b = ⟨b, vl, vil, false, e, false⟩ := by
  unfold train_step
  rw [if_neg h1, if_neg h2]

theorem applyStep_no_change {α : Type} (s : RunState α) (config : α) :
    applyStep s config ⟨s.best_config, s.val_loss, s.val_inner_loss,
      false, s.e, false⟩ = s := by
  obtain ⟨b, vl, vil, e, d⟩ := s
  rfl

theorem runEpochs_stop_some {α : Type} (config : α) (losses : List ℚ)
    (ep0 : Int) (s : RunState α) (n : Int)
    (h : (runEpochs config losses ep0 s).2 = some n) : 30 < n - s.e := by
  induction losses generalizing ep0 s with
  | nil => simp [runEpochs] at h
  | cons l ls ih =>
    by_cases hstop : (train_step l ep0 s.e s.val_loss s.val_inner_loss
        config s.best_config).stop = true
    · rw [runEpochs, if_pos hstop] at h
      obtain ⟨_, h30⟩ := (train_step_stop_iff l ep0 s.e s.val_loss
        s.val_inner_loss config s.best_config).mp hstop
      have heq : ep0 = n := by simpa using h
      omega
    · rw [runEpochs, if_neg hstop] at h
      have := ih (ep0 + 1)
        (applyStep s config (train_step l ep0 s.e s.val_loss
          s.val_inner_loss config s.best_config)) h
      rwa [show (applyStep s config (train_step l ep0 s.e s.val_loss
          s.val_inner_loss config s.best_config)).e = s.e from
        train_step_e_eq l ep0 s.e s.val_loss s.val_inner_loss config
          s.best_config] at this

theorem runEpochs_stalled {α : Type} (config : α) (losses : List ℚ)
    (ep0 : Int) (s : RunState α)
    (h1 : ∀ l ∈ losses, s.val_inner_loss ≤ l) (h2 : ep0 ≤ s.e + 31)
    (h3 : s.e + 31 < ep0 + (losses.length : Int)) :
    (runEpochs config losses ep0 s).2 = some (s.e + 31) := by
  induction losses generalizing ep0 with
  | nil => exfalso; simp at h3; omega
  | cons l ls ih =>
    have hle : s.val_inner_loss ≤ l := h1 l (List.mem_cons_self l ls)
    have hnotlt : ¬ l < s.val_inner_loss := not_lt.mpr hle
    by_cases heq : ep0 = s.e + 31
    · have hstop : (train_step l ep0 s.e s.val_loss s.val_inner_loss
          config s.best_config).stop = true :=
        (train_step_stop_iff l ep0 s.e s.val_loss s.val_inner_loss
          config s.best_config).mpr ⟨hle, by omega⟩
      rw [runEpochs, if_pos hstop, heq]
    · have hlt : ep0 < s.e + 31 := lt_of_le_of_ne h2 heq
      have hnostall : ¬ 30 < ep0 - s.e := by omega
      have hstep : train_step l ep0 s.e s.val_loss s.val_inner_loss
          config s.best_config = ⟨s.best_config, s.val_loss,
            s.val_inner_loss, false, s.e, false⟩ :=
        train_step_no_change l ep0 s.e s.val_loss s.val_inner_loss
          config s.best_config hnotlt hnostall
      have hstop : ¬ (train_step l ep0 s.e s.val_loss s.val_inner_loss
          config s.best_config).stop = true := by
        rw [hstep]; simp
      rw [runEpochs, if_neg hstop, hstep, applyStep_no_change]
      have h3a : s.e + 31 < (ep0 + 1) + (ls.length : Int) := by
        simp only [List.length_cons] at h3
        push_cast at h3
        omega
      exact ih (ep0 + 1) (fun x hx => h1 x (List.mem_cons_of_mem l hx))
        (by omega) h3a

/-- C1 (amended): within one config's run, `train` signals `stop = True`
at most once (the caller breaks at the first stop, modelled by `runEpochs`
returning at most one stopping epoch), and the stalled branch fires
exactly when `current_validation_loss >= val_inner_loss` and
`epoch - e > 30` where `e` is the value passed in unchanged — `main`
initializes `e = 0` and `train` never updates it, so the stop can occur
only more than 30 epochs after the start of the config's run, not after
the most recent improvement of `val_inner_loss`; when the losses never
improve `val_inner_loss`, the stop fires exactly at epoch `e + 31`. -/
theorem train_stop_measured_from_run_start {α : Type} (t : ℚ)
    (ep e : Int) (vl vil : ℚ) (c b : α) (config : α) (losses : List ℚ)
    (ep0 : Int) (s : RunState α) :
    ((train_step t ep e vl vil c b).stop = true ↔
      vil ≤ t ∧ 30 < ep - e) ∧
    (∀ n, (runEpochs config losses ep0 s).2 = some n → 30 < n - s.e) ∧
    ((∀ l ∈ losses, s.val_inner_loss ≤ l) → ep0 ≤ s.e + 31 →
      s.e + 31 < ep0 + (losses.length : Int) →
      (runEpochs config losses ep0 s).2 = some (s.e + 31)) :=
  ⟨train_step_stop_iff t ep e vl vil c b,
   fun n h => runEpochs_stop_some config losses ep0 s n h,
   fun h1 h2 h3 => runEpochs_stalled config losses ep0 s h1 h2 h3⟩

/-- Witness for C1: with constant losses 100 and `val_inner_loss = 50`
(never improving), starting at epoch 0 with `e = 0`, the run of 32 epochs
stops exactly at epoch 31, and 31 is more than 30 epochs after `e = 0`. -/
theorem train_stop_measured_from_run_start_witness :
    ((train_step (100 : ℚ) 40 0 50 50 (0 : ℕ) 0).stop = true ↔
      (50 : ℚ) ≤ 100 ∧ (30 : ℤ) < 40 - 0) ∧
    (runEpochs (0 : ℕ) (List.replicate 32 (100 : ℚ)) 0
      ⟨0, 50, 50, 0, none⟩).2 = some (0 + 31) ∧
    (30 : ℤ) < (0 + 31) - 0 :=
  ⟨(train_stop_measured_from_run_start 100 40 0 50 50 (0 : ℕ) 0 0
      (List.replicate 32 (100 : ℚ)) 0 ⟨0, 50, 50, 0, none⟩).1,
   (train_stop_measured_from_run_start 100 40 0 50 50 (0 : ℕ) 0 0
      (List.replicate 32 (100 : ℚ)) 0 ⟨0, 50, 50, 0, none⟩).2.2
     (by decide) (by decide) (by decide),
   (train_stop_measured_from_run_start 100 40 0 50 50 (0 : ℕ) 0 0
      (List.replicate 32 (100 : ℚ)) 0 ⟨0, 50, 50, 0, none⟩).2.1 (0 + 31)
     ((train_stop_measured_from_run_start 100 40 0 50 50 (0 : ℕ) 0 0
        (List.replicate 32 (100 : ℚ)) 0 ⟨0, 50, 50, 0, none⟩).2.2
       (by decide) (by decide) (by decide))⟩

/-- Counterexample to C1 as stated: feeding losses 100, 50 and then
thirty more 50s (threaded exactly as `main` does), `val_inner_loss` last
improves at epoch 1, yet the run signals `stop` at epoch 31, which is NOT
strictly more than 30 epochs after that most recent improvement. -/
theorem train_stop_spec_counterexample :
    (runEpochs 0 ([100, 50] ++ List.replicate 30 50) 0 initRun).2 =
      some 31 ∧
    improvementEpochsSpec ([100, 50] ++ List.replicate 30 50) initRun =
      [0, 1] ∧
    ¬ (30 : ℤ) < 31 - 1 :=
  ⟨by decide, by decide, by decide⟩

/-- C10: `train` returns its `e` argument unchanged (last component of
the returned tuple), including on calls where the validation loss
improves; the stall-window start never advances. -/
theorem train_returns_e_unchanged {α : Type} (t : ℚ) (epoch e : Int)
    (vl vil : ℚ) (c b : α) : (train_step t epoch e vl vil c b).e = e :=
  train_step_e_eq t epoch e vl vil c b

/-- C5: the best-model checkpoint is written by a `train` call exactly
when that call strictly decreases the global best validation loss
`val_loss`; a call that does not improve the global best leaves the
on-disk checkpoint unchanged. -/
theorem checkpoint_write_iff_val_loss_decreases {α : Type} (t : ℚ)
    (epoch : Int) (s : RunState α) (config : α) (r : StepResult α)
    (hr : r = train_step t epoch s.e s.val_loss s.val_inner_loss config
      s.best_config) :
    (r.saved = true ↔ r.val_loss < s.val_loss) ∧
    (r.saved = false → (applyStep s config r).disk = s.disk) := by
  subst hr
  unfold train_step
  split_ifs with h1 h2 h3
  · exact ⟨iff_of_true rfl h2, by simp⟩
  · exact ⟨iff_of_false (by simp) (lt_irrefl _), fun _ => by
      simp [applyStep]⟩
  · exact ⟨iff_of_false (by simp) (lt_irrefl _), fun _ => by
      simp [applyStep]⟩
  · exact ⟨iff_of_false (by simp) (lt_irrefl _), fun _ => by
      simp [applyStep]⟩

/-- Witness for C5: an improving loss (3 below both bests 5 and 7) does
save, and the saved-iff-decrease equivalence holds at that input. -/
theorem checkpoint_write_iff_val_loss_decreases_witness :
    ((train_step (3 : ℚ) 0 0 5 7 (1 : ℕ) 0).saved = true ↔
      (train_step (3 : ℚ) 0 0 5 7 (1 : ℕ) 0).val_loss < 5) ∧
    ((train_step (3 : ℚ) 0 0 5 7 (1 : ℕ) 0).saved = false →
      (applyStep (⟨0, 5, 7, 0, none⟩ : RunState ℕ) 1
        (train_step (3 : ℚ) 0 0 5 7 (1 : ℕ) 0)).disk =
      (⟨0, 5, 7, 0, none⟩ : RunState ℕ).disk) :=
  checkpoint_write_iff_val_loss_decreases 3 0 ⟨0, 5, 7, 0, none⟩ 1 _ rfl

/-- C8: a `KeyboardInterrupt` during the epoch body makes `train` write,
unconditionally, a checkpoint holding exactly the epoch, model
parameters, optimizer state, current config index and best config so far
under the key `"<run-name>_continue"` and exit the process with status 0;
no other exception is caught (it propagates), and without an exception
the call returns normally. -/
theorem interrupt_checkpoint_and_exit {α : Type} (name : String)
    (ms osd : Nat) (t : ℚ) (epoch e : Int) (vl vil : ℚ) (config : α)
    (cn : Nat) (b : α) :
    train name .keyboardInterrupt ms osd t epoch e vl vil config cn b =
      .exitProcess 0 (name ++ "_continue") ⟨epoch, ms, osd, cn, b⟩ ∧
    train name .otherExc ms osd t epoch e vl vil config cn b = .raised ∧
    train name .noExc ms osd t epoch e vl vil config cn b =
      .ret (train_step t epoch e vl vil config b) :=
  ⟨rfl, rfl, rfl⟩

theorem get_cons_eraseIdx_perm {α : Type} :
    ∀ (l : List α) (i : Fin l.length), (l.get i :: l.eraseIdx i).Perm l
  | a :: rest, ⟨0, _⟩ => by simp
  | a :: rest, ⟨j + 1, hj⟩ => by
    have ih := get_cons_eraseIdx_perm rest ⟨j, Nat.lt_of_succ_lt_succ hj⟩
    exact (List.Perm.swap a _ _).trans (List.Perm.cons a ih)

theorem sampleAux_perm {α : Type} (choose : Nat → Nat) :
    ∀ (k : Nat) (pop : List α), k = pop.length →
      (sampleAux choose k pop).Perm pop
  | 0, [], _ => by simp [sampleAux]
  | 0, _ :: _, h => by simp at h
  | _ + 1, [], h => by simp at h
  | k + 1, a :: rest, h => by
    have hi : choose k % (a :: rest).length < (a :: rest).length :=
      Nat.mod_lt _ (Nat.succ_pos rest.length)
    have hlen : k =
        ((a :: rest).eraseIdx (choose k % (a :: rest).length)).length := by
      rw [List.length_eraseIdx_of_lt hi]
      simp at h ⊢
      omega
    have ih := sampleAux_perm choose k
      ((a :: rest).eraseIdx (choose k % (a :: rest).length)) hlen
    exact (List.Perm.cons _ ih).trans
      (get_cons_eraseIdx_perm (a :: rest) ⟨choose k % (a :: rest).length, hi⟩)

theorem dedup_length_lt_of_not_nodup {α : Type} [DecidableEq α]
    (l : List α) (h : ¬ l.Nodup) : l.dedup.length < l.length := by
  have hsub := List.dedup_sublist l
  rcases lt_or_eq_of_le hsub.length_le with hlt | heq
  · exact hlt
  · exact absurd (hsub.eq_of_length heq ▸ l.nodup_dedup) h

/-- C2 (amended): when the Cartesian product of the value lists has no
duplicate tuples, `create_config` returns normally a sequence that is a
permutation of the product — same underlying set of tuples, length equal
to the number of distinct tuples, drawn without replacement (a full
shuffle).  When the product DOES contain duplicate tuples (a dimension
list with a repeated value), `create_config` does not return normally:
`random.sample` is asked for `len(prod)` draws from the smaller
deduplicated set and raises `ValueError`. -/
theorem create_config_perm_or_raises {α : Type} [DecidableEq α]
    (choose : Nat → Nat) (hp : List (List α)) :
    ((product hp).Nodup →
      (create_config choose hp).toOption.isSome = true) ∧
    (∀ l, create_config choose hp = .ok l →
      l.Perm (product hp) ∧ l.length = (product hp).length) ∧
    (¬ (product hp).Nodup → create_config choose hp =
      .error "ValueError: Sample larger than population or is negative") := by
  by_cases hnd : (product hp).Nodup
  · have hd : (product hp).dedup = product hp := List.dedup_eq_self.mpr hnd
    have hok : create_config choose hp =
        .ok (sampleAux choose (product hp).length (product hp)) := by
      simp only [create_config, randomSample]
      rw [hd, if_neg (lt_irrefl _)]
    refine ⟨fun _ => by rw [hok]; rfl, ?_, fun hc => absurd hnd hc⟩
    intro l hl
    rw [hok] at hl
    have hperm := sampleAux_perm choose (product hp).length (product hp) rfl
    cases hl
    exact ⟨hperm, hperm.length_eq⟩
  · have herr : create_config choose hp =
        .error "ValueError: Sample larger than population or is negative" := by
      simp only [create_config, randomSample]
      rw [if_pos (dedup_length_lt_of_not_nodup _ hnd)]
    refine ⟨fun hc => absurd hc hnd, ?_, fun _ => herr⟩
    intro l hl
    rw [herr] at hl
    exact absurd hl (by simp)

/-- Witness for C2: on the spec's example `[[1,2],[10]]` the product
`[[1,10],[2,10]]` has no duplicates, `create_config` succeeds, and the
value returned under the always-pick-index-0 draw is a permutation of the
product of the right length. -/
theorem create_config_perm_or_raises_witness :
    (product [[1, 2], [10]]).Nodup ∧
    (create_config (fun _ => 0) [[1, 2], [10]]).toOption.isSome = true ∧
    (([[1, 10], [2, 10]] : List (List ℕ)).Perm (product [[1, 2], [10]]) ∧
      ([[1, 10], [2, 10]] : List (List ℕ)).length =
        (product [[1, 2], [10]]).length) :=
  ⟨by decide,
   (create_config_perm_or_raises (fun _ => 0) [[1, 2], [10]]).1 (by decide),
   (create_config_perm_or_raises (fun _ => 0) [[1, 2], [10]]).2.1
     [[1, 10], [2, 10]] (by rfl)⟩

/-- Counterexample to C2 as stated: on the non-empty dimension list
`[[1,1]]` the product holds the duplicate tuple `[1]` twice, and
`create_config` raises `ValueError` instead of returning a deduplicated
permutation — the claim's "this holds in particular when the product
contains duplicate tuples" is false. -/
theorem create_config_duplicate_counterexample :
    create_config (fun _ => 0) [[1, 1]] =
      .error "ValueError: Sample larger than population or is negative" :=
  rfl

theorem product_eq_nil_of_mem {α : Type} (hp : List (List α))
    (h : [] ∈ hp) : product hp = [] := by
  induction hp with
  | nil => simp at h
  | cons l ls ih =>
    rcases List.mem_cons.mp h with h1 | h2
    · rw [← h1]
      simp [product]
    · simp [product, ih h2]

/-- C3 (amended): `create_config` itself has a failure mode beyond empty
input — duplicate tuples in the product make it raise (see the C2
counterexample) — and on an empty configuration space (some value list
empty) it returns the empty sequence normally, after which `main` fails
with an `IndexError` at `best_config = configs[0]` (line 250) BEFORE the
search loop, rather than performing zero work. -/
theorem empty_config_space {α : Type} [DecidableEq α] (choose : Nat → Nat)
    (hp : List (List α)) (h : [] ∈ hp) :
    create_config choose hp = .ok [] ∧
    mainSetup choose hp = .error "IndexError: list index out of range" := by
  have hp0 : product hp = [] := product_eq_nil_of_mem hp h
  have hok : create_config choose hp = .ok [] := by
    simp only [create_config, randomSample]
    rw [hp0]
    simp [sampleAux]
  exact ⟨hok, by simp [mainSetup, hok]⟩

/-- Witness for C3 (amended): with the empty first value list,
`create_config` returns `[]` and `main`'s setup raises the index error. -/
theorem empty_config_space_witness :
    create_config (fun _ => 0) [([] : List ℕ), [5]] = .ok [] ∧
    mainSetup (fun _ => 0) [([] : List ℕ), [5]] =
      .error "IndexError: list index out of range" :=
  empty_config_space (fun _ => 0) [[], [5]] (by decide)

/-- Counterexample to C3 as stated: `create_config` fails on the
non-empty input `[[2,2]]` (a failure mode beyond degenerate empty input),
and with an empty configuration space `main` fails with an `IndexError`
instead of its search loop performing zero work. -/
theorem empty_config_space_counterexample :
    create_config (fun _ => 0) [[2, 2]] =
      .error "ValueError: Sample larger than population or is negative" ∧
    mainSetup (fun _ => 0) [([] : List ℕ)] =
      .error "IndexError: list index out of range" :=
  ⟨rfl, rfl⟩

theorem start_add_mul_le (L bs : Nat) (_hlen : bs ≤ L) :
    L % (L / bs) + L / bs * bs ≤ L := by
  have hL : L % bs + L / bs * bs = L := Nat.mod_add_div' L bs
  have h1 : L % (L / bs) ≤ L % bs := by
    calc L % (L / bs) = (L % bs + L / bs * bs) % (L / bs) := by rw [hL]
      _ = (L % bs) % (L / bs) := Nat.add_mul_mod_self_left _ _ _
      _ ≤ L % bs := Nat.mod_le _ _
  omega

theorem batching_slice_bound (L bs i : Nat) (hlen : bs ≤ L)
    (hi : i < L / bs) : L % (L / bs) + i * bs + bs ≤ L := by
  have hbound := start_add_mul_le L bs hlen
  have h1 : (i + 1) * bs ≤ L / bs * bs :=
    Nat.mul_le_mul (by omega) (le_refl bs)
  have h2 : (i + 1) * bs = i * bs + bs := by ring
  rw [h2] at h1
  omega

theorem take_drop_len {α : Type} (x : List α) (s bs : Nat)
    (h : s + bs ≤ x.length) : ((x.drop s).take bs).length = bs := by
  simp only [List.length_take, List.length_drop]
  omega

theorem batching_eq_ok {α : Type} (batch_size : Nat) (x y_t : List α)
    (hbs : 1 ≤ batch_size) (hlen : batch_size ≤ x.length)
    (hy : y_t.length = x.length) :
    batching batch_size x y_t = .ok (
      (List.range (x.length / batch_size)).map fun i =>
        (x.drop (x.length % (x.length / batch_size) + i * batch_size)).take
          batch_size,
      (List.range (x.length / batch_size)).map fun i =>
        (y_t.drop (x.length % (x.length / batch_size) + i * batch_size)).take
          batch_size) := by
  have hq : 0 < x.length / batch_size := Nat.div_pos hlen (by omega)
  have hX : ∀ i, i < x.length / batch_size →
      ((x.drop (x.length % (x.length / batch_size) + i * batch_size)).take
        batch_size).length = batch_size :=
    fun i hi => take_drop_len _ _ _
      (batching_slice_bound x.length batch_size i hlen hi)
  have hYl : ∀ i, i < x.length / batch_size →
      ((y_t.drop (x.length % (x.length / batch_size) + i * batch_size)).take
        batch_size).length = batch_size := by
    intro i hi
    refine take_drop_len _ _ _ ?_
    rw [hy]
    exact batching_slice_bound x.length batch_size i hlen hi
  simp only [batching]
  rw [if_neg (by omega : ¬ x.length / batch_size = 0)]
  have hcond : ((((List.range (x.length / batch_size)).map fun i =>
        (x.drop (x.length % (x.length / batch_size) + i * batch_size)).take
          batch_size).all fun b => b.length == batch_size) &&
      (((List.range (x.length / batch_size)).map fun i =>
        (y_t.drop (x.length % (x.length / batch_size) + i * batch_size)).take
          batch_size).all fun b => b.length == batch_size)) = true := by
    rw [Bool.and_eq_true]
    constructor
    · rw [List.all_eq_true]
      intro b hb
      rw [List.mem_map] at hb
      obtain ⟨i, hi, rfl⟩ := hb
      rw [List.mem_range] at hi
      simp [hX i hi]
    · rw [List.all_eq_true]
      intro b hb
      rw [List.mem_map] at hb
      obtain ⟨i, hi, rfl⟩ := hb
      rw [List.mem_range] at hi
      simp [hYl i hi]
  rw [if_pos hcond]

/-- C4: for `batch_size >= 1` and equal time-lengths `L >= batch_size`,
`batching` returns `floor(L / batch_size)` batches, each of exactly
`batch_size` contiguous time-steps of its input, starting at offset
`L mod batch_count` (the modulus is the batch COUNT `L / batch_size`,
not the batch size) and advancing by `batch_size` per batch, the
time-steps before the starting offset being discarded. -/
theorem batching_shape {α : Type} (batch_size : Nat) (x y_t : List α)
    (hbs : 1 ≤ batch_size) (hlen : batch_size ≤ x.length)
    (hy : y_t.length = x.length) :
    batching batch_size x y_t = .ok (
      (List.range (x.length / batch_size)).map fun i =>
        (x.drop (x.length % (x.length / batch_size) + i * batch_size)).take
          batch_size,
      (List.range (x.length / batch_size)).map fun i =>
        (y_t.drop (x.length % (x.length / batch_size) + i * batch_size)).take
          batch_size) ∧
    ∀ i, i < x.length / batch_size →
      ((x.drop (x.length % (x.length / batch_size) + i * batch_size)).take
        batch_size).length = batch_size ∧
      ((y_t.drop (x.length % (x.length / batch_size) + i * batch_size)).take
        batch_size).length = batch_size := by
  refine ⟨batching_eq_ok batch_size x y_t hbs hlen hy, fun i hi => ⟨?_, ?_⟩⟩
  · exact take_drop_len _ _ _
      (batching_slice_bound x.length batch_size i hlen hi)
  · refine take_drop_len _ _ _ ?_
    rw [hy]
    exact batching_slice_bound x.length batch_size i hlen hi

/-- Witness for C4: the spec's example `L = 10`, `batch_size = 3` gives
3 batches starting at offset `10 mod 3 = 1`, so time-step 0 is dropped. -/
theorem batching_shape_witness :
    batching 3 (List.range 10) (List.range 10) =
      .ok ([[1, 2, 3], [4, 5, 6], [7, 8, 9]],
           [[1, 2, 3], [4, 5, 6], [7, 8, 9]]) :=
  ((batching_shape 3 (List.range 10) (List.range 10) (by decide) (by decide)
    rfl).1).trans (by rfl)

/-- C9: with `batch_size >= 1` and equal time-lengths, if
`L >= batch_size` then the starting offset `L mod batch_count` satisfies
`start + batch_count * batch_size <= L`, so every slice lies in bounds
and `batching` succeeds; whereas if `0 < L < batch_size` the computed
batch count is 0 and `batching` fails with the modulo-by-zero error, not
with an out-of-range indexing error. -/
theorem batching_bounds {α : Type} (batch_size : Nat) (x y_t : List α)
    (hbs : 1 ≤ batch_size) (hy : y_t.length = x.length) :
    (batch_size ≤ x.length →
      x.length % (x.length / batch_size) +
        x.length / batch_size * batch_size ≤ x.length ∧
      (batching batch_size x y_t).toOption.isSome = true) ∧
    (0 < x.length → x.length < batch_size →
      batching batch_size x y_t =
        .error "ZeroDivisionError: integer division or modulo by zero") := by
  constructor
  · intro hlen
    refine ⟨start_add_mul_le x.length batch_size hlen, ?_⟩
    rw [batching_eq_ok batch_size x y_t hbs hlen hy]
    rfl
  · intro hpos hlt
    have hq : x.length / batch_size = 0 := Nat.div_eq_of_lt hlt
    simp only [batching]
    rw [if_pos hq]

/-- Witness for C9: `L = 10`, `batch_size = 3` stays in bounds and
succeeds; `L = 2 < 3 = batch_size` hits the modulo-by-zero error. -/
theorem batching_bounds_witness :
    ((10 : Nat) % (10 / 3) + 10 / 3 * 3 ≤ 10 ∧
      (batching 3 (List.range 10) (List.range 10)).toOption.isSome = true) ∧
    batching 3 (List.range 2) (List.range 2) =
      .error "ZeroDivisionError: integer division or modulo by zero" :=
  ⟨(batching_bounds 3 (List.range 10) (List.range 10) (by decide) rfl).1
     (by decide),
   (batching_bounds 3 (List.range 2) (List.range 2) (by decide) rfl).2
     (by decide) (by decide)⟩

theorem getKey_setKey_self (k : String) (v : List ℚ) (d : Ledger) :
    getKey k (setKey k v d) = some v := by
  induction d with
  | nil => simp [setKey, getKey]
  | cons kv rest ih =>
    obtain ⟨k2, v2⟩ := kv
    by_cases h : k2 = k
    · simp [setKey, getKey, h]
    · simp [setKey, getKey, h, ih]

theorem getKey_setKey_ne (k kq : String) (h : kq ≠ k) (v : List ℚ)
    (d : Ledger) : getKey kq (setKey k v d) = getKey kq d := by
  induction d with
  | nil => simp [setKey, getKey, Ne.symm h]
  | cons kv rest ih =>
    obtain ⟨k2, v2⟩ := kv
    by_cases h2 : k2 = k
    · subst h2
      simp [setKey, getKey, Ne.symm h, ih]
    · simp [setKey, getKey, h2, ih]

/-- C6: merging into an existing error-ledger file appends the new
(RMSE, MAE) pair to the run name's prior entry list (two prior values
plus two new values is a list of length 4), never touches other run
names' entries, starts a fresh list for an unseen run name, and creates
a fresh single-entry file only when no file exists — so a run name's
entries accumulate monotonically across invocations. -/
theorem ledger_appends (d : Ledger) (name : String) (rmse mae : ℚ) :
    (∀ prior, getKey name d = some prior →
      getKey name (updateErrorLedger (some d) name rmse mae) =
        some (prior ++ [rmse, mae]) ∧
      (prior ++ [rmse, mae]).length = prior.length + 2) ∧
    (∀ k, k ≠ name → getKey k (updateErrorLedger (some d) name rmse mae) =
      getKey k d) ∧
    (getKey name d = none →
      getKey name (updateErrorLedger (some d) name rmse mae) =
        some [rmse, mae]) ∧
    updateErrorLedger none name rmse mae = [(name, [rmse, mae])] := by
  refine ⟨?_, ?_, ?_, rfl⟩
  · intro prior hp
    refine ⟨?_, by simp⟩
    simp only [updateErrorLedger, hp, Option.getD_some]
    exact getKey_setKey_self name _ d
  · intro k hk
    simp only [updateErrorLedger]
    exact getKey_setKey_ne name k hk _ d
  · intro hn
    simp only [updateErrorLedger, hn, Option.getD_none, List.nil_append]
    exact getKey_setKey_self name _ d

/-- Witness for C6: a run name with two prior values ends with four, the
other run name's entry is untouched, and the no-file case creates the
single-entry ledger. -/
theorem ledger_appends_witness :
    (getKey "lstm" (updateErrorLedger (some [("lstm", [1, 2]), ("cnn", [3])])
        "lstm" 9 8) = some ([1, 2] ++ [9, 8]) ∧
      (([1, 2] : List ℚ) ++ [9, 8]).length = ([1, 2] : List ℚ).length + 2) ∧
    getKey "cnn" (updateErrorLedger (some [("lstm", [1, 2]), ("cnn", [3])])
      "lstm" 9 8) = getKey "cnn" [("lstm", [1, 2]), ("cnn", [3])] ∧
    updateErrorLedger none "lstm" 9 8 = [("lstm", [9, 8])] :=
  ⟨(ledger_appends [("lstm", [1, 2]), ("cnn", [3])] "lstm" 9 8).1 [1, 2]
     (by rfl),
   (ledger_appends [("lstm", [1, 2]), ("cnn", [3])] "lstm" 9 8).2.1 "cnn"
     (by decide),
   (ledger_appends [("lstm", [1, 2]), ("cnn", [3])] "lstm" 9 8).2.2.2⟩

theorem searchLoop_length {α : Type} (configs : List α)
    (lt : List (List ℚ)) (vl : ℚ) (b : α) (d : Option α) :
    (searchLoop configs lt vl b d).1.length = configs.length := by
  induction configs generalizing lt vl b d with
  | nil => rfl
  | cons c cs ih => simp [searchLoop, ih]

/-- C7 (amended): the outer search runs one Evaluator invocation after
every config's training — no early termination of the outer loop — plus
one final invocation, so the Evaluator is invoked `configs.length + 1`
times, and the final invocation receives the overall best config; but
each per-config invocation receives the CURRENT BEST config
(`evaluate(best_config, ...)`, line 340), not necessarily the config
just trained. -/
theorem eval_once_per_config_then_best {α : Type} (configs : List α)
    (lt : List (List ℚ)) (vl : ℚ) (b : α) (d : Option α) :
    (searchLoop configs lt vl b d).1.length = configs.length ∧
    ∀ calls, mainEvalCalls configs lt = .ok calls →
      calls.length = configs.length + 1 ∧
      calls.getLast? =
        some (searchLoop configs lt 10000000000 (configs.headD b) none).2 := by
  refine ⟨searchLoop_length configs lt vl b d, ?_⟩
  intro calls hc
  cases configs with
  | nil => simp [mainEvalCalls] at hc
  | cons c cs =>
    simp only [mainEvalCalls] at hc
    injection hc with h
    subst h
    constructor
    · simp [searchLoop_length]
    · rw [List.getLast?_concat]
      rfl

/-- Witness for C7: two configs where the second does not improve the
best — three Evaluator invocations, the last with the final best. -/
theorem eval_once_per_config_then_best_witness :
    (searchLoop [0, 1] [[100], [200]] 10000000000 (0 : ℕ) none).1.length =
      ([0, 1] : List ℕ).length ∧
    (([0, 0, 0] : List ℕ).length = ([0, 1] : List ℕ).length + 1 ∧
      ([0, 0, 0] : List ℕ).getLast? = some (searchLoop [0, 1]
        [[100], [200]] 10000000000 (([0, 1] : List ℕ).headD 0) none).2) :=
  ⟨(eval_once_per_config_then_best [0, 1] [[100], [200]] 10000000000 0
      none).1,
   (eval_once_per_config_then_best [0, 1] [[100], [200]] 10000000000 0
      none).2 [0, 0, 0] (by rfl)⟩

/-- Counterexample to C7 as stated: with configs 0 and 1 where config 1
does not improve the global best, the Evaluator calls are `[0, 0, 0]` —
the invocation after training config 1 passes config 0 (the running
best), not the config just trained, so the calls are not `[0, 1, 0]`. -/
theorem eval_uses_best_config_counterexample :
    mainEvalCalls [0, 1] [[100], [200]] = .ok [0, 0, 0] ∧
    ¬ mainEvalCalls [0, 1] [[100], [200]] = .ok [0, 1, 0] := by
  refine ⟨rfl, fun h => ?_⟩
  have h1 : (Except.ok [0, 0, 0] : Except String (List ℕ)) = .ok [0, 1, 0] :=
    (rfl : mainEvalCalls [0, 1] [[100], [200]] =
      Except.ok [0, 0, 0]).symm.trans h
  injection h1 with h2
  exact absurd h2 (by decide)
